import Mathlib

/-!
Shallow embedding of the mood-tracking notebook (`src/2finetuned.ipynb`):
the multi-label emotion preprocessing and batch-inference pipeline.

Modelling conventions:
* probabilities / label values are rationals (`ℚ`) where the code only
  compares or copies them, and reals (`ℝ`) where the code applies `sigmoid`
  (which is `Real.exp`-based and has no executable counterpart);
* token ids are `Nat`, the tokenizer pad id is modelled as `0`;
* numpy operations that raise (`IndexError`, broadcast `ValueError`)
  are embedded as `Option`-returning functions, `none` meaning the raise.
-/

namespace MoodTracking

/-- The fixed label space of the notebook (`emotion_labels`, 28 GoEmotions
categories, in the order written in the inference cell). -/
def emotion_labels : List String :=
  ["admiration", "amusement", "anger", "annoyance", "approval", "caring",
   "confusion", "curiosity", "desire", "disappointment", "disapproval", "disgust",
   "embarrassment", "excitement", "fear", "gratitude", "grief", "joy", "love",
   "nervousness", "optimism", "pride", "realization", "relief", "remorse",
   "sadness", "surprise", "neutral"]

/-- `num_labels = 28` as fixed throughout the notebook. -/
def numLabels : Nat := 28

/-- The notebook's default decision threshold, `threshold = 0.5`. -/
def threshold : ℚ := mkRat 1 2

/-- Thresholded multi-label decoding, embedding
`predictions = (probabilities > threshold).int()` followed by the loop that
collects each `emotion` whose prediction bit is `1`, in label order:
the categories whose probability is strictly greater than the threshold.
Generic in the scalar type so it can be read back at `ℚ` (decidable claims)
and at `ℝ` (the sigmoid pipeline). -/
def decode {α : Type} [LT α] [DecidableRel ((· < ·) : α → α → Prop)]
    (labelSpace : List String) (probs : List α) (t : α) : List String :=
  ((labelSpace.zip probs).filter (fun ep => decide (t < ep.2))).map (fun ep => ep.1)

/-- One row of `preprocess_function`'s label matrix: `labels = np.zeros((·, 28))`
followed by `labels[idx, label] = 1`.  numpy accepts any index in `[-28, 28)`
(negative indices count from the end) and raises `IndexError` otherwise,
embedded as `none`. -/
def encodeLabel (l : Int) : Option (List ℚ) :=
  if -28 ≤ l ∧ l < 28 then
    some ((List.range numLabels).map (fun (j : Nat) => if (j : Int) = l % 28 then 1 else 0))
  else
    none

/-- One row of the secondary-dataset alignment loop:
`adjusted_labels = np.zeros((·, 28))` then `adjusted_labels[i, :len(label)] = label`.
When `len(label) ≤ 28` this zero-pads the binarized row to width 28; when
`len(label) > 28` the numpy slice has length 28 and the assignment raises a
broadcast `ValueError`, embedded as `none`. -/
def adjustRow (b : List ℚ) : Option (List ℚ) :=
  if b.length ≤ numLabels then some (b ++ List.replicate (numLabels - b.length) 0)
  else none

/-- `torch.sigmoid` on one logit: `1 / (1 + exp(-x))`. -/
noncomputable def sigmoid (x : ℝ) : ℝ := 1 / (1 + Real.exp (-x))

/-- One row of `probabilities = torch.sigmoid(outputs.logits)`: the sigmoid
applied independently to each logit of the row. -/
noncomputable def toProbabilities (logits : List ℝ) : List ℝ := logits.map sigmoid

/-- The per-text outcome of the inference cell: the input text, its per-label
probabilities, and the emotions predicted at the threshold. -/
structure PredictionResult where
  text : String
  probabilities : List ℝ
  predicted_labels : List String

/-- The inference cell as a pipeline: for each input text (in order), run the
model forward (`forward` abstracts tokenizer + model, giving the logit row the
batch forward pass produces for that text), squash the logits with `sigmoid`,
and decode at the threshold. -/
noncomputable def predict (forward : String → List ℝ) (t : ℝ)
    (texts : List String) : List PredictionResult :=
  texts.map (fun s =>
    { text := s
      probabilities := toProbabilities (forward s)
      predicted_labels := decode emotion_labels (toProbabilities (forward s)) t })

/-- Right-pad a token-id sequence with the pad id (modelled as `0`) up to
length `L` (no-op when the sequence is at least that long). -/
def padTo (L : Nat) (ts : List Nat) : List Nat :=
  ts ++ List.replicate (L - ts.length) 0

/-- Training-time text encoding of one example (`preprocess_function`):
`tokenizer(..., padding="max_length", truncation=True, max_length=128)` —
truncate the token sequence to 128 and pad it to exactly 128. -/
def encodeTrain (ts : List Nat) : List Nat := padTo 128 (ts.take 128)

/-- Inference-time batch encoding (`tokenizer(..., padding=True,
truncation=True, max_length=128)`): truncate each token sequence to 128 and
pad each to the longest truncated sequence of the batch (dynamic padding). -/
def encodeInferBatch (batch : List (List Nat)) : List (List Nat) :=
  let L := (batch.map (fun ts => (ts.take 128).length)).foldr max 0
  batch.map (fun ts => padTo L (ts.take 128))

/-- `torch.argmax(logits, dim=-1)` on one logit row: the index of the first
maximal entry. -/
def argmaxIdx (l : List ℚ) : Nat :=
  l.findIdx (fun x => l.all (fun y => decide (y ≤ x)))

/-- The accuracy-evaluation cell's `predictions = torch.argmax(logits, dim=-1)`:
one argmax index per logit row. -/
def evalPredictions (logitRows : List (List ℚ)) : List Nat :=
  logitRows.map argmaxIdx

/-- `metric.compute(predictions=..., references=...)` for the accuracy metric:
the fraction of rows whose argmax index equals the raw integer label. -/
def accuracy (preds refs : List Nat) : ℚ :=
  ((preds.zip refs).countP (fun pr => decide (pr.1 = pr.2)) : ℚ) / (refs.length : ℚ)

/-- `LabelBinarizer` transform of one sentiment string against the fitted
vocabulary (the binarizer's ordered classes): one-hot over that vocabulary. -/
def binarize (vocab : List String) (s : String) : List ℚ :=
  vocab.map (fun v => if v = s then (1 : ℚ) else 0)

/-- The `CustomDataset` wrapper of the notebook: it stores the encodings and
its `__len__` is the number of `input_ids` rows. -/
structure CustomDataset where
  input_ids : List (List Nat)
  labels : List (List ℚ)

/-- `CustomDataset.__len__`: `len(self.encodings["input_ids"])`. -/
def datasetLen (d : CustomDataset) : Nat := d.input_ids.length

/-- The custom-dataset cell end to end: binarize every record's sentiment
against the fitted vocabulary, re-align every binarized row to width 28
(a broadcast failure anywhere aborts the cell, hence `Option`), tokenize every
record's content (`tok` abstracts the per-text tokenizer) with dynamic
padding, and wrap everything in a `CustomDataset`. -/
def buildCustomDataset (tok : String → List Nat) (vocab : List String)
    (records : List (String × String)) : Option CustomDataset :=
  match (records.map (fun r => binarize vocab r.2)).mapM adjustRow with
  | none => none
  | some adjusted =>
      some ⟨encodeInferBatch (records.map (fun r => tok r.1)), adjusted⟩

end MoodTracking

namespace MoodTracking

lemma emotion_labels_length : emotion_labels.length = 28 := by decide

lemma emotion_labels_nodup : emotion_labels.Nodup := by decide

lemma decode_mem_iff (L : List String) (hL : L.Nodup) (p : List ℚ) (t : ℚ)
    (hp : p.length = L.length) (i : Nat) (hi : i < L.length) (hip : i < p.length) :
    L[i] ∈ decode L p t ↔ t < p[i] := by
  unfold decode
  constructor
  · intro hmem
    obtain ⟨ep, hfil, hfst⟩ := List.mem_map.mp hmem
    have hzip := (List.mem_filter.mp hfil).1
    have hlt := (List.mem_filter.mp hfil).2
    obtain ⟨j, hj, hget⟩ := List.mem_iff_getElem.mp hzip
    have hlen : (L.zip p).length = min L.length p.length := List.length_zip L p
    have hjL : j < L.length := by omega
    have hjp : j < p.length := by omega
    rw [List.getElem_zip] at hget
    have ha : L[j] = L[i] := by rw [← hfst, ← hget]
    have hji : j = i := (List.Nodup.getElem_inj_iff hL).mp ha
    have hx : ep.2 = p[j] := by rw [← hget]
    have hres : t < ep.2 := of_decide_eq_true hlt
    rw [hx] at hres
    subst hji
    exact hres
  · intro hlt
    apply List.mem_map.mpr
    refine ⟨(L[i], p[i]), ?_, rfl⟩
    apply List.mem_filter.mpr
    refine ⟨?_, by simpa using hlt⟩
    have hi' : i < (L.zip p).length := by
      rw [List.length_zip]; omega
    have hzi : (L.zip p)[i] = (L[i], p[i]) := List.getElem_zip
    rw [← hzi]
    exact List.getElem_mem hi'

lemma decode_const_eq_nil (L : List String) (t : ℚ) :
    decode L (List.replicate L.length t) t = [] := by
  unfold decode
  rw [List.map_eq_nil_iff, List.filter_eq_nil_iff]
  rintro ⟨a, x⟩ hmem
  have hx : x ∈ List.replicate L.length t := (List.of_mem_zip hmem).2
  have : x = t := List.eq_of_mem_replicate hx
  simp [this]

/-- C1: for every probability vector `p` (of the label-space's width) and
threshold `t`, the decoded prediction set contains category `c` exactly when
`p` at `c`'s index is strictly greater than `t`; and when every probability
equals the threshold (e.g. all `0.5` at threshold `0.5`) the decoded set is
empty. -/
theorem decode_strict_threshold :
    (∀ (L : List String) (p : List ℚ) (t : ℚ), L.Nodup → p.length = L.length →
       ∀ (i : Nat) (hi : i < L.length) (hip : i < p.length),
       L[i] ∈ decode L p t ↔ t < p[i]) ∧
    (∀ (L : List String) (t : ℚ), decode L (List.replicate L.length t) t = []) :=
  ⟨fun L p t hL hp i hi hip => decode_mem_iff L hL p t hp i hi hip,
   fun L t => decode_const_eq_nil L t⟩

/-- C1 witness: the boundary scenario with three labels, probabilities
`[0.5, 0.5, 0.5]` and threshold `0.5`, and a membership instance. -/
theorem decode_strict_threshold_witness :
    ("anger" ∈ decode ["joy", "anger", "fear"] [(1 : ℚ)/5, 9/10, 2/5] (1/2) ↔
      (1 : ℚ)/2 < 9/10) ∧
    decode ["joy", "anger", "fear"]
      (List.replicate (["joy", "anger", "fear"].length) ((1 : ℚ)/2)) (1/2) = [] :=
  ⟨decode_strict_threshold.1 ["joy", "anger", "fear"] [(1 : ℚ)/5, 9/10, 2/5] (1/2)
      (by decide) (by decide) 1 (by decide) (by decide),
   decode_strict_threshold.2 ["joy", "anger", "fear"] ((1 : ℚ)/2)⟩

/-- C2 counterexample: a binarized row of width 29 (> 28) makes the
assignment `adjusted_labels[i, :len(label)] = label` raise a broadcast error
(modelled as `none`); no truncated vector is produced, contradicting the
claim's truncation case. -/
theorem adjustRow_width29_fails : adjustRow (List.replicate 29 (1 : ℚ)) = none := by
  simp [adjustRow, numLabels]

/-- C2 (amended): for a binarized row `b` of width `M ≤ N = 28` the re-aligned
row is the positional zero-padding of `b` (entry `j` is `b[j]` for `j < M` and
`0` for `M ≤ j < N`); for `M > N` the assignment fails with a broadcast error
(no truncation happens). -/
theorem adjustRow_zero_pads :
    (∀ b : List ℚ, b.length ≤ numLabels →
      ∃ v, adjustRow b = some v ∧ v.length = numLabels ∧
        (∀ j, j < b.length → v[j]? = b[j]?) ∧
        (∀ j, b.length ≤ j → j < numLabels → v[j]? = some 0)) ∧
    (∀ b : List ℚ, numLabels < b.length → adjustRow b = none) := by
  constructor
  · intro b hb
    refine ⟨b ++ List.replicate (numLabels - b.length) 0, ?_, ?_, ?_, ?_⟩
    · simp [adjustRow, hb]
    · simp; omega
    · intro j hj
      rw [List.getElem?_append, if_pos hj]
    · intro j hjb hjN
      rw [List.getElem?_append_right hjb, List.getElem?_replicate]
      simp
      omega
  · intro b hb
    simp [adjustRow]
    omega

/-- C2 witness: a width-2 row is zero-padded to width 28 with its entries kept
in place. -/
theorem adjustRow_zero_pads_witness :
    ∃ v, adjustRow [(1 : ℚ), 0] = some v ∧ v.length = numLabels ∧
      (∀ j, j < [(1 : ℚ), 0].length → v[j]? = [(1 : ℚ), 0][j]?) ∧
      (∀ j, [(1 : ℚ), 0].length ≤ j → j < numLabels → v[j]? = some 0) :=
  adjustRow_zero_pads.1 [(1 : ℚ), 0] (by decide)

/-- C7 counterexample: the integer label `-1` is outside `[0, 28)` but
`labels[idx, -1] = 1` does not fail — numpy's negative indexing sets the last
column, producing a one-hot vector at index 27. -/
theorem encodeLabel_neg_one_succeeds :
    encodeLabel (-1) = some (List.replicate 27 (0 : ℚ) ++ [1]) := by decide

/-- C7 (amended): for integer labels in `[-28, 28)` (numpy index range) the
encoder sets exactly one index to `1` — index `l % 28`, i.e. `l` itself for
`l ≥ 0` and `28 + l` for negative `l` under numpy negative indexing — and all
others to `0`; it fails only for labels outside `[-28, 28)`. -/
theorem encodeLabel_one_hot :
    (∀ l : Int, -28 ≤ l → l < 28 →
      ∃ v, encodeLabel l = some v ∧ v.length = numLabels ∧
        ∀ j, j < numLabels →
          v[j]? = some (if (j : Int) = l % 28 then (1 : ℚ) else 0)) ∧
    (∀ l : Int, l < -28 ∨ 28 ≤ l → encodeLabel l = none) := by
  constructor
  · intro l h0 h1
    refine ⟨(List.range numLabels).map
        (fun (j : Nat) => if (j : Int) = l % 28 then (1 : ℚ) else 0), ?_, ?_, ?_⟩
    · unfold encodeLabel
      rw [if_pos ⟨h0, h1⟩]
    · simp [numLabels]
    · intro j hj
      rw [List.getElem?_map, List.getElem?_range hj]
      simp
  · intro l h
    unfold encodeLabel
    rw [if_neg]
    omega

/-- C7 witness: label `5` is in range and one-hot encodes with the `1` at
index `5`. -/
theorem encodeLabel_one_hot_witness :
    ∃ v, encodeLabel 5 = some v ∧ v.length = numLabels ∧
      ∀ j, j < numLabels →
        v[j]? = some (if (j : Int) = 5 % 28 then (1 : ℚ) else 0) :=
  encodeLabel_one_hot.1 5 (by decide) (by decide)

/-- C3: for every raw integer label `l` in `[0, 28)`, one-hot encoding `l` and
decoding the resulting vector at the default threshold `0.5` yields exactly the
singleton list containing the `l`-th label-space category. -/
theorem encode_decode_roundtrip (l : Int) (h0 : 0 ≤ l) (h1 : l < 28) :
    ∃ v, encodeLabel l = some v ∧
      decode emotion_labels v threshold = (emotion_labels[l.toNat]?).toList := by
  interval_cases l <;> refine ⟨_, rfl, ?_⟩ <;> decide

/-- C3 witness: label `2` encodes to the one-hot vector decoding to
`["anger"]`, the label-space entry at index 2. -/
theorem encode_decode_roundtrip_witness :
    ∃ v, encodeLabel 2 = some v ∧
      decode emotion_labels v threshold = (emotion_labels[(2 : Int).toNat]?).toList :=
  encode_decode_roundtrip 2 (by decide) (by decide)

/-- C4: every label vector actually produced by either label encoder — the
primary one-hot encoder or the secondary re-alignment — has length exactly
`N = 28` (so index `i` always addresses the same slot of the 28-wide label
space). -/
theorem label_vectors_length_28 :
    (∀ (l : Int) (v : List ℚ), encodeLabel l = some v → v.length = numLabels) ∧
    (∀ (b v : List ℚ), adjustRow b = some v → v.length = numLabels) := by
  constructor
  · intro l v hv
    unfold encodeLabel at hv
    by_cases h : -28 ≤ l ∧ l < 28
    · rw [if_pos h] at hv
      obtain rfl : _ = v := Option.some_injective _ hv
      simp [numLabels]
    · rw [if_neg h] at hv
      exact absurd hv (by simp)
  · intro b v hv
    unfold adjustRow at hv
    by_cases h : b.length ≤ numLabels
    · rw [if_pos h] at hv
      obtain rfl : _ = v := Option.some_injective _ hv
      simp
      omega
    · rw [if_neg h] at hv
      exact absurd hv (by simp)

/-- C4 witness: concrete vectors from both encoders have length 28. -/
theorem label_vectors_length_28_witness :
    ((List.range numLabels).map
        (fun (j : Nat) => if (j : Int) = 0 % 28 then (1 : ℚ) else 0)).length = numLabels ∧
    ([(1 : ℚ)] ++ List.replicate (numLabels - 1) 0).length = numLabels :=
  ⟨label_vectors_length_28.1 0 _ rfl, label_vectors_length_28.2 [1] _ rfl⟩

/-- C5: logits are squashed entrywise — entry `i` of the probability row is the
sigmoid of logit `i` alone (no coupling across labels, unlike a softmax) — and
every sigmoid value lies in `[0, 1]`. -/
theorem sigmoid_probabilities :
    (∀ (logits : List ℝ) (i : Nat) (hi : i < logits.length)
      (hpi : i < (toProbabilities logits).length),
        (toProbabilities logits)[i] = sigmoid logits[i]) ∧
    (∀ x : ℝ, 0 ≤ sigmoid x ∧ sigmoid x ≤ 1) ∧
    (∀ (forward : String → List ℝ) (t : ℝ) (texts : List String)
       (r : PredictionResult), r ∈ predict forward t texts →
       ∀ x ∈ r.probabilities, 0 ≤ x ∧ x ≤ 1) := by
  have hbound : ∀ x : ℝ, 0 ≤ sigmoid x ∧ sigmoid x ≤ 1 := by
    intro x
    have hexp : 0 < Real.exp (-x) := Real.exp_pos _
    constructor
    · unfold sigmoid
      positivity
    · unfold sigmoid
      rw [div_le_one (by positivity)]
      linarith
  refine ⟨?_, hbound, ?_⟩
  · intro logits i hi hpi
    simp [toProbabilities]
  · intro forward t texts r hr x hx
    obtain ⟨s, hs, rfl⟩ := List.mem_map.mp hr
    obtain ⟨y, hy, rfl⟩ := List.mem_map.mp hx
    exact hbound y

/-- C5 witness: the probability row of the single logit `0` is `[sigmoid 0]`,
`sigmoid 0` lies in `[0, 1]`, and the entry of a one-text prediction's
probability row lies in `[0, 1]`. -/
theorem sigmoid_probabilities_witness :
    (toProbabilities [(0 : ℝ)]).get ⟨0, by simp [toProbabilities]⟩ = sigmoid 0 ∧
    (0 ≤ sigmoid 0 ∧ sigmoid 0 ≤ 1) ∧
    (0 ≤ sigmoid 1 ∧ sigmoid 1 ≤ 1) :=
  ⟨sigmoid_probabilities.1 [(0 : ℝ)] 0 (by simp) (by simp [toProbabilities]),
   sigmoid_probabilities.2.1 0,
   sigmoid_probabilities.2.2 (fun _ => [(1 : ℝ)]) 0 ["hello"]
     ⟨"hello", toProbabilities [(1 : ℝ)],
       decode emotion_labels (toProbabilities [(1 : ℝ)]) 0⟩
     (by simp [predict]) (sigmoid 1) (by simp [toProbabilities])⟩

/-- C6: `predict` yields exactly one `PredictionResult` per input text, the
`i`-th result carries the `i`-th input text, and — given the model contract
that each logit row has width 28 — its probability row has length 28. -/
theorem predict_order_preserved (forward : String → List ℝ) (t : ℝ)
    (texts : List String) (hf : ∀ s, (forward s).length = numLabels)
    (i : Nat) (hi : i < texts.length)
    (hpi : i < (predict forward t texts).length) :
    (predict forward t texts).length = texts.length ∧
    (predict forward t texts)[i].text = texts[i] ∧
    (predict forward t texts)[i].probabilities.length = numLabels := by
  refine ⟨by simp [predict], ?_, ?_⟩
  · simp [predict]
  · simp [predict, toProbabilities, hf]

/-- C6 witness: a three-text batch (the notebook's `custom_input`) under a
width-28 stub model: three results, the second carrying the second text with a
28-wide probability row. -/
theorem predict_order_preserved_witness :
    (predict (fun _ => List.replicate numLabels (0 : ℝ)) 0
        ["I am feeling wonderful today!", "I am so annoyed and angry right now!",
         "I'm confused about what to do next."]).length =
      (["I am feeling wonderful today!", "I am so annoyed and angry right now!",
        "I'm confused about what to do next."] : List String).length ∧
    (predict (fun _ => List.replicate numLabels (0 : ℝ)) 0
        ["I am feeling wonderful today!", "I am so annoyed and angry right now!",
         "I'm confused about what to do next."])[1].text =
      (["I am feeling wonderful today!", "I am so annoyed and angry right now!",
        "I'm confused about what to do next."] : List String)[1] ∧
    (predict (fun _ => List.replicate numLabels (0 : ℝ)) 0
        ["I am feeling wonderful today!", "I am so annoyed and angry right now!",
         "I'm confused about what to do next."])[1].probabilities.length = numLabels :=
  predict_order_preserved (fun _ => List.replicate numLabels (0 : ℝ)) 0
    ["I am feeling wonderful today!", "I am so annoyed and angry right now!",
     "I'm confused about what to do next."]
    (fun s => by simp) 1 (by simp) (by simp [predict])

lemma le_foldr_max (l : List Nat) (a : Nat) (ha : a ∈ l) : a ≤ l.foldr max 0 := by
  induction l with
  | nil => simp at ha
  | cons x xs ih =>
    rcases List.mem_cons.mp ha with rfl | ha
    · simp
    · simp only [List.foldr_cons]
      exact le_trans (ih ha) (le_max_right _ _)

lemma foldr_max_le (l : List Nat) (n : Nat) (h : ∀ a ∈ l, a ≤ n) :
    l.foldr max 0 ≤ n := by
  induction l with
  | nil => simp
  | cons x xs ih =>
    simp only [List.foldr_cons, max_le_iff]
    exact ⟨h x (by simp), ih (fun a ha => h a (List.mem_cons_of_mem _ ha))⟩

/-- C8 counterexample: a batch of one short text (one token) is encoded at
inference to a length-1 row (dynamic `padding=True`), while the training-time
policy (`padding="max_length"`) pads the same text to 128 tokens, so the two
encodings differ. -/
theorem infer_encoding_differs_from_train :
    encodeInferBatch [[5]] ≠ [encodeTrain [5]] := by decide

/-- C8 (amended): inference uses the same truncation and the same
`max_length = 128`, but a different padding policy: training pads every
sequence to exactly 128 while inference pads to the longest truncated sequence
of the batch, so the training-time encoding equals the inference-time encoding
only after further right-padding to 128. -/
theorem infer_encoding_pads_to_train (batch : List (List Nat)) (i : Nat)
    (hi : i < batch.length) (hpi : i < (encodeInferBatch batch).length) :
    encodeTrain batch[i] = padTo 128 (encodeInferBatch batch)[i] := by
  have hx : (encodeInferBatch batch)[i] =
      padTo ((batch.map (fun ts => (ts.take 128).length)).foldr max 0)
        (batch[i].take 128) := by
    simp [encodeInferBatch]
  set L := (batch.map (fun ts => (ts.take 128).length)).foldr max 0 with hL
  have hmem : (batch[i].take 128).length ∈
      batch.map (fun ts => (ts.take 128).length) :=
    List.mem_map.mpr ⟨batch[i], List.getElem_mem hi, rfl⟩
  have h1 : (batch[i].take 128).length ≤ L := le_foldr_max _ _ hmem
  have h2 : L ≤ 128 := by
    apply foldr_max_le
    intro a ha
    obtain ⟨ts, hts, rfl⟩ := List.mem_map.mp ha
    simp [List.length_take]
  rw [hx]
  unfold encodeTrain padTo
  rw [List.append_assoc, ← List.replicate_add]
  congr 2
  simp only [List.length_append, List.length_replicate]
  omega

/-- C8 witness (for the amended claim): in a two-text batch whose longer text
has 2 tokens, the first row is padded to length 2 at inference and padding it
on to 128 recovers the training-time encoding. -/
theorem infer_encoding_pads_to_train_witness :
    encodeTrain [5] = padTo 128 (encodeInferBatch [[5], [7, 8]])[0] :=
  infer_encoding_pads_to_train [[5], [7, 8]] 0 (by decide) (by decide)

lemma exists_ub_mem (l : List ℚ) (h : l ≠ []) : ∃ m ∈ l, ∀ y ∈ l, y ≤ m := by
  induction l with
  | nil => simp at h
  | cons a xs ih =>
    rcases eq_or_ne xs [] with rfl | hxs
    · exact ⟨a, by simp, by simp⟩
    · obtain ⟨m, hm, hub⟩ := ih hxs
      rcases le_total a m with hle | hle
      · refine ⟨m, by simp [hm], ?_⟩
        intro y hy
        rcases List.mem_cons.mp hy with rfl | hy
        · exact hle
        · exact hub y hy
      · refine ⟨a, by simp, ?_⟩
        intro y hy
        rcases List.mem_cons.mp hy with rfl | hy
        · exact le_rfl
        · exact le_trans (hub y hy) hle

lemma argmaxIdx_spec (l : List ℚ) (h : l ≠ []) :
    ∃ hm : argmaxIdx l < l.length,
      ∀ (j : Nat) (hj : j < l.length), l[j] ≤ l[argmaxIdx l] := by
  obtain ⟨m, hmem, hub⟩ := exists_ub_mem l h
  have hex : ∃ x ∈ l, (fun x => l.all (fun y => decide (y ≤ x))) x = true := by
    refine ⟨m, hmem, ?_⟩
    simp only [List.all_eq_true, decide_eq_true_eq]
    exact hub
  have hlt : l.findIdx (fun x => l.all (fun y => decide (y ≤ x))) < l.length :=
    List.findIdx_lt_length_of_exists hex
  refine ⟨hlt, ?_⟩
  intro j hj
  have hp := @List.findIdx_getElem _ (fun x => l.all (fun y => decide (y ≤ x)))
    l hlt
  simp only [List.all_eq_true, decide_eq_true_eq] at hp
  exact hp l[j] (List.getElem_mem hj)

/-- C9: the accuracy-evaluation step's prediction for each logit row is the
single argmax index of that row — an index of the row at which the logits are
maximal — not the thresholded multi-label decode. -/
theorem eval_prediction_is_argmax (rows : List (List ℚ)) (i : Nat)
    (hi : i < rows.length) (hpi : i < (evalPredictions rows).length)
    (hne : rows[i] ≠ []) :
    (evalPredictions rows)[i] = argmaxIdx rows[i] ∧
    ∃ hm : argmaxIdx rows[i] < rows[i].length,
      ∀ (j : Nat) (hj : j < rows[i].length),
        rows[i][j] ≤ rows[i][argmaxIdx rows[i]] := by
  refine ⟨by simp [evalPredictions], argmaxIdx_spec rows[i] hne⟩

/-- C9 witness: on the logit row `[1, 3, 2]` the evaluation prediction is the
argmax index, which attains the row's maximum. -/
theorem eval_prediction_is_argmax_witness :
    (evalPredictions [[(1 : ℚ), 3, 2]]).get ⟨0, by simp [evalPredictions]⟩ =
      argmaxIdx [(1 : ℚ), 3, 2] ∧
    ∃ hm : argmaxIdx [(1 : ℚ), 3, 2] < [(1 : ℚ), 3, 2].length,
      ∀ (j : Nat) (hj : j < [(1 : ℚ), 3, 2].length),
        [(1 : ℚ), 3, 2][j] ≤ [(1 : ℚ), 3, 2][argmaxIdx [(1 : ℚ), 3, 2]] :=
  eval_prediction_is_argmax [[(1 : ℚ), 3, 2]] 0 (by simp)
    (by simp [evalPredictions]) (by simp)

lemma mapM_option_length {α β : Type} (f : α → Option β) (l : List α) :
    ∀ l' : List β, l.mapM f = some l' → l'.length = l.length := by
  induction l with
  | nil =>
    intro l' h
    simp only [List.mapM_nil, pure, Option.some.injEq] at h
    simp [← h]
  | cons a xs ih =>
    intro l' h
    rw [List.mapM_cons] at h
    cases hfa : f a with
    | none => rw [hfa] at h; simp at h
    | some b =>
      rw [hfa] at h
      cases hxs : xs.mapM f with
      | none => rw [hxs] at h; simp at h
      | some bs =>
        rw [hxs] at h
        simp only [Option.bind_eq_bind, Option.some_bind, pure,
          Option.some.injEq] at h
        subst h
        simp [ih bs hxs]

/-- C10: whenever the custom-dataset cell completes, the dataset holds exactly
one tokenized row and one label row per input record — no record (not even one
with empty text) is skipped — and `__len__` equals the number of records. -/
theorem dataset_len_eq_records (tok : String → List Nat) (vocab : List String)
    (records : List (String × String))
    (h : (buildCustomDataset tok vocab records).isSome = true) :
    (buildCustomDataset tok vocab records).map datasetLen =
      some records.length ∧
    (buildCustomDataset tok vocab records).map (fun d => d.labels.length) =
      some records.length := by
  obtain ⟨d, hd⟩ := Option.isSome_iff_exists.mp h
  unfold buildCustomDataset at hd ⊢
  cases hadj : (records.map (fun r => binarize vocab r.2)).mapM adjustRow with
  | none => rw [hadj] at hd; simp at hd
  | some adjusted =>
    rw [hadj] at hd
    simp only [Option.map_some, Option.some.injEq]
    have hlab : adjusted.length = records.length := by
      have := mapM_option_length adjustRow _ adjusted hadj
      simpa using this
    constructor
    · simp [datasetLen, encodeInferBatch]
    · simp [hlab]

/-- C10 witness: two records, one with empty text, build a dataset of length 2
with two label rows. -/
theorem dataset_len_eq_records_witness :
    (buildCustomDataset (fun _ => []) ["happiness", "sadness"]
        [("", "happiness"), ("feeling low", "sadness")]).map datasetLen =
      some 2 ∧
    (buildCustomDataset (fun _ => []) ["happiness", "sadness"]
        [("", "happiness"), ("feeling low", "sadness")]).map
        (fun d => d.labels.length) = some 2 :=
  dataset_len_eq_records (fun _ => []) ["happiness", "sadness"]
    [("", "happiness"), ("feeling low", "sadness")] (by decide)

end MoodTracking
